import Mathlib

/-!
Shallow embedding of the hacker-news-scraper repository (src/main.rs and
src/athing.rs) together with proofs about its specification.

Modelling conventions:
* HTML nodes of the `select` crate are modelled by the inductive `HN.Html`
  (text node / comment node / element with name, attributes, children).
* A `select::node::Node` always lives inside a document, so sibling
  navigation (`Node::next`) is available; we model a node-in-context as the
  node together with the list of its following siblings (`HN.AThing`).
* Rust strings are Lean `String`s (lists of unicode scalar values); the
  byte-level operations of the source (`String::truncate`, `&str[..=i]`)
  are modelled byte-faithfully through `Char.utf8Size`.
* Rust panics (from `expect`, `panic!`, byte-slicing outside a char
  boundary and `String::truncate` on a non-boundary) are modelled as
  `Except.error msg` with the panic's message, so that distinct panic
  sites stay distinguishable.
* The endless pagination iterator `(1..)` of `fetch_posts` is modelled
  with an explicit fuel argument; `none` means the fuel was exhausted
  before the loop finished, i.e. the loop runs beyond that many pages.
-/

set_option maxHeartbeats 4000000
set_option maxRecDepth 100000

namespace HN

/-- Model of an HTML node as exposed by the `select` crate
(`select::node::Data`): a text node, a comment, or an element carrying a
tag name, an attribute list and child nodes. -/
inductive Html where
  | text (s : String)
  | comment (s : String)
  | elem (name : String) (attrs : List (String × String)) (children : List Html)

namespace Html

/-- `Node::name()`: `some` tag name for elements, `none` otherwise. -/
def name? : Html → Option String
  | .elem n _ _ => some n
  | _ => none

/-- `Node::attr(key)`: attribute lookup on an element. -/
def attrValue : Html → String → Option String
  | .elem _ attrs _, key => (attrs.find? (fun kv => kv.1 == key)).map (·.2)
  | _, _ => none

/-- `Node::first_child()`. -/
def firstChild : Html → Option Html
  | .elem _ _ cs => cs.head?
  | _ => none

/-- `Node::as_text()`: the contents of a text node. -/
def asText : Html → Option String
  | .text s => some s
  | _ => none

mutual
/-- All descendants of a node in document (preorder) order, excluding the
node itself; the traversal underlying `Node::find`. -/
def descendants : Html → List Html
  | .text _ => []
  | .comment _ => []
  | .elem _ _ cs => descendantsL cs

/-- Descendant traversal over a child list. -/
def descendantsL : List Html → List Html
  | [] => []
  | c :: rest => c :: (descendants c ++ descendantsL rest)
end

/-- `node.find(pred).next()`: first matching descendant. -/
def findFirst (p : Html → Bool) (h : Html) : Option Html :=
  (h.descendants.filter p).head?

/-- `node.find(pred).last()`: last matching descendant. -/
def findLast (p : Html → Bool) (h : Html) : Option Html :=
  (h.descendants.filter p).getLast?

/-- `Node::text()`: the concatenated contents of all text nodes in the
subtree (including the node itself when it is a text node). -/
def nodeText (h : Html) : String :=
  String.join ((h :: h.descendants).filterMap asText)

/-- Helper for `split_whitespace`: accumulate the current word (reversed)
while scanning the character list. -/
def splitWSAux (cur : List Char) : List Char → List (List Char)
  | [] => if cur.isEmpty then [] else [cur.reverse]
  | c :: cs =>
    if c.isWhitespace then
      if cur.isEmpty then splitWSAux [] cs else cur.reverse :: splitWSAux [] cs
    else
      splitWSAux (c :: cur) cs

/-- Model of `str::split_whitespace` (the source only applies it to class
attribute values, which use ASCII whitespace). -/
def splitWS (s : List Char) : List (List Char) := splitWSAux [] s

/-- The `Class(c)` predicate of the `select` crate: the `class` attribute
exists and contains `c` as a whitespace-separated word. -/
def hasClass (h : Html) (c : String) : Bool :=
  match h.attrValue "class" with
  | some v => (splitWS v.data).contains c.data
  | none => false

end Html

/-! ## Byte-level string primitives (Rust `String::truncate`, `&str[..i]`) -/

/-- The UTF-8 byte length of a character list. -/
def bytesLen (cs : List Char) : Nat := (cs.map Char.utf8Size).sum

/-- Keep the first `n` bytes of a character list.  Mirrors Rust's byte
slicing / `String::truncate`: if `n` is at least the total byte length the
list is unchanged, if `n` falls on a char boundary the prefix up to that
boundary is kept, and otherwise the operation panics (modelled as
`.error msg`). -/
def takeBytes (msg : String) : Nat → List Char → Except String (List Char)
  | 0, _ => .ok []
  | _ + 1, [] => .ok []
  | n + 1, c :: cs =>
    if c.utf8Size ≤ n + 1 then (takeBytes msg (n + 1 - c.utf8Size) cs).map (c :: ·)
    else .error msg

/-- Panic message of `String::truncate` on a non-boundary length. -/
def truncPanicMsg : String := "assertion failed: self.is_char_boundary(new_len)"

/-- Panic message of byte slicing (`&text[..=end]`) off a char boundary. -/
def slicePanicMsg : String := "byte index is not a char boundary"

/-- Panic message of `.expect(\"uri + title\")` in `Post::try_from`. -/
def expectUriTitleMsg : String := "uri + title"

/-- Rust `String::truncate(new_len)`: byte-based truncation that panics
when `new_len` is below the byte length and not a char boundary. -/
def rustTruncate (s : String) (newLen : Nat) : Except String String :=
  (takeBytes truncPanicMsg newLen s.data).map String.mk

/-! ## The shared numeric-prefix primitive (`NodeExt::extract_number_prefix`) -/

/-- Model of Rust `char::is_numeric`, which is true exactly on the Unicode
Number general categories (Nd, Nl, No).  Encoding the full Unicode table
is out of scope; this model covers the ASCII digits together with a few
representative non-ASCII decimal-digit blocks (Arabic-Indic, Extended
Arabic-Indic, Devanagari).  Every theorem below is insensitive to the
exact extension beyond the facts that ASCII digits are numeric and that
characters such as `'+'`, `'.'`, `' '` and ASCII letters are not. -/
def charIsNumeric (c : Char) : Bool :=
  c.isDigit
    || (0x660 ≤ c.toNat && c.toNat ≤ 0x669)
    || (0x6F0 ≤ c.toNat && c.toNat ≤ 0x6F9)
    || (0x966 ≤ c.toNat && c.toNat ≤ 0x96F)

/-- `str::char_indices()`: characters paired with their byte offsets,
starting at offset `i`. -/
def charIndices (i : Nat) : List Char → List (Nat × Char)
  | [] => []
  | c :: cs => (i, c) :: charIndices (i + c.utf8Size) cs

/-- The largest usize value (the scraper targets 64-bit Rust). -/
def USIZE_MAX : Nat := 2 ^ 64 - 1

/-- Decimal value of a digit list. -/
def decimalValue (ds : List Char) : Nat :=
  ds.foldl (fun a c => a * 10 + (c.toNat - '0'.toNat)) 0

/-- Model of `str::parse::<usize>()` (`usize::from_str`): an optional
leading `'+'`, then a nonempty run of ASCII digits whose decimal value
fits in usize; anything else is `none`. -/
def parseUsize (s : List Char) : Option Nat :=
  let digits := if s.head? = some '+' then s.tail else s
  if digits.isEmpty then none
  else if digits.all Char.isDigit then
    if decimalValue digits ≤ USIZE_MAX then some (decimalValue digits) else none
  else none

/-- The string-level core of `NodeExt::extract_number_prefix`:

```rust
let end = text.char_indices().take_while(|(_, c)| c.is_numeric()).last()?.0;
text[..=end].parse().ok()
```

`.error` models the byte-slicing panic when `end + 1` is not a char
boundary (i.e. the last numeric prefix character is multi-byte). -/
def extractNumberPrefixText (text : List Char) : Except String (Option Nat) :=
  match ((charIndices 0 text).takeWhile (fun ic => charIsNumeric ic.2)).getLast? with
  | none => .ok none
  | some (i, _) =>
    match takeBytes slicePanicMsg (i + 1) text with
    | .error e => .error e
    | .ok sub => .ok (parseUsize sub)

/-- `NodeExt::extract_number_prefix` on a node:

```rust
let text = self.first_child()?.as_text()?;
```

returns `none` when the node has no first child or its first child is not
a text node. -/
def Html.extractNumberPrefix (h : Html) : Except String (Option Nat) :=
  match h.firstChild with
  | none => .ok none
  | some ch =>
    match ch.asText with
    | none => .ok none
    | some t => extractNumberPrefixText t.data

/-! ## `AThing` and `AThingLine2` (src/athing.rs) -/

/-- Wrapper for a `tr.athing` node.  A `select` node knows its document,
so `Node::next()` is available; the embedding therefore carries the list
of siblings following the wrapped node in document order. -/
structure AThing where
  tr : Html
  nextSiblings : List Html

/-- Wrapper for the `tr` that follows a `tr.athing` node. -/
structure AThingLine2 where
  node : Html

/-- `AThing::uri_and_title`:

```rust
let storylink = self.0.find(Class("storylink")).next()?;
Some((storylink.attr("href")?.into(), storylink.text()))
``` -/
def AThing.uriAndTitle (a : AThing) : Option (String × String) := do
  let storylink ← a.tr.findFirst (fun n => n.hasClass "storylink")
  let href ← storylink.attrValue "href"
  pure (href, storylink.nodeText)

/-- `AThing::rank`: first descendant of class `rank`, then the shared
numeric-prefix extraction. -/
def AThing.rank (a : AThing) : Except String (Option Nat) :=
  match a.tr.findFirst (fun n => n.hasClass "rank") with
  | none => .ok none
  | some n => n.extractNumberPrefix

/-- `AThing::line2`: walk the following siblings
(`std::iter::successors(self.0.next(), |n| n.next())`) until one is a
`tr` element. -/
def AThing.line2 (a : AThing) : Option AThingLine2 :=
  (a.nextSiblings.find? (fun n => n.name? == some "tr")).map AThingLine2.mk

/-- `AThingLine2::author`: text of the first descendant of class
`hnuser`. -/
def AThingLine2.author (l : AThingLine2) : Option String :=
  (l.node.findFirst (fun n => n.hasClass "hnuser")).map Html.nodeText

/-- `AThingLine2::points`: first descendant of class `score`, then the
shared numeric-prefix extraction. -/
def AThingLine2.points (l : AThingLine2) : Except String (Option Nat) :=
  match l.node.findFirst (fun n => n.hasClass "score") with
  | none => .ok none
  | some n => n.extractNumberPrefix

/-- `AThingLine2::comments`: the *last* `a`-element descendant, then the
shared numeric-prefix extraction. -/
def AThingLine2.comments (l : AThingLine2) : Except String (Option Nat) :=
  match l.node.findLast (fun n => n.name? == some "a") with
  | none => .ok none
  | some n => n.extractNumberPrefix

/-! ## `Post` and `Post::try_from` (src/main.rs) -/

/-- Hacker news post data. -/
structure Post where
  title : String
  uri : String
  rank : Nat
  author : Option String
  points : Option Nat
  comments : Option Nat
deriving DecidableEq

/-- `Post::try_from`, following the source's evaluation order exactly:

```rust
let (uri, mut title) = athing.uri_and_title().expect("uri + title");
let line2 = athing.line2()?;
title.truncate(256);
Some(Post { title, uri, rank: athing.rank()?, author: ..., points, comments })
```

`.error` carries the message of the Rust panic that fires on that path
(`expect`, `String::truncate` off a boundary, or the slicing panic inside
`extract_number_prefix`); `.ok none` is the silent drop. -/
def Post.tryFrom (athing : AThing) : Except String (Option Post) :=
  match athing.uriAndTitle with
  | none => .error expectUriTitleMsg
  | some (uri, title) =>
    match athing.line2 with
    | none => .ok none
    | some line2 =>
      match rustTruncate title 256 with
      | .error e => .error e
      | .ok title =>
        match athing.rank with
        | .error e => .error e
        | .ok none => .ok none
        | .ok (some rank) =>
          match (match line2.author with
                 | none => Except.ok none
                 | some a => (rustTruncate a 256).map some) with
          | .error e => .error e
          | .ok author =>
            match line2.points with
            | .error e => .error e
            | .ok points =>
              match line2.comments with
              | .error e => .error e
              | .ok comments =>
                .ok (some { title, uri, rank, author, points, comments })

/-! ## Page scanning and the pagination aggregator (`fetch_posts`) -/

/-- Does a node match `Name("tr").and(Class("athing"))`? -/
def isAThingTr (h : Html) : Bool :=
  h.name? == some "tr" && h.hasClass "athing"

mutual
/-- The `tr.athing` matches found at a node or below it, given the
node's following siblings (the context an `AThing` needs for `line2`). -/
def athingsOfNode (rest : List Html) : Html → List AThing
  | .text _ => []
  | .comment _ => []
  | .elem nm attrs cs =>
    (if isAThingTr (.elem nm attrs cs) then [⟨.elem nm attrs cs, rest⟩] else [])
      ++ athingsList cs

/-- All `tr.athing` matches of a sibling list in document order, each
paired with its following siblings.  Mirrors
`page.find(Name("tr").and(Class("athing")))`. -/
def athingsList : List Html → List AThing
  | [] => []
  | c :: rest => athingsOfNode rest c ++ athingsList rest
end

/-- All `tr.athing` matches of a whole document. -/
def Html.athings (root : Html) : List AThing := athingsList [root]

/-- `filter_map` with a fallible (panicking) closure: the elements are
processed in order and a panic aborts the whole page. -/
def filterMapE (f : α → Except String (Option β)) : List α → Except String (List β)
  | [] => .ok []
  | a :: as' =>
    match f a with
    | .error e => .error e
    | .ok b? =>
      match filterMapE f as' with
      | .error e => .error e
      | .ok bs => .ok (match b? with | some b => b :: bs | none => bs)

/-- One page of the aggregator:

```rust
page.find(Name("tr").and(Class("athing")))
    .filter_map(|tr| Post::try_from(AThing(tr)))
    .collect::<Vec<_>>()
``` -/
def pagePosts (page : Html) : Except String (List Post) :=
  filterMapE Post.tryFrom page.athings

/-- The pagination loop of `fetch_posts`, with the lazy iterator chain

```rust
(1..).map(|page_num| fetch_news_html(&client, page_num).unwrap_or_else(panic!))
     .flat_map(|page| ...collect::<Vec<_>>())
     .take(n)
     .collect()
```

made into explicit recursion: before fetching another page the `take n`
adapter stops as soon as `n` posts have been accumulated; each fetched
page is processed in full (the `flat_map` closure collects the whole
page's vector before any item is yielded).  The second component of the
result records which pages were fetched, in order.  `none` means the
given fuel ran out before the loop finished (the source iterator is
unbounded). -/
def fetchPostsLoop (fetch : Nat → Except String Html) (n : Nat) :
    Nat → List Post → List Nat → Nat → Option (Except String (List Post) × List Nat)
  | page, acc, trace, fuel =>
    if n ≤ acc.length then some (.ok (acc.take n), trace)
    else
      match fuel with
      | 0 => none
      | fuel + 1 =>
        match fetch page with
        | .error e =>
          some (.error ("Failed to fetch page " ++ toString page
            ++ " from hacker news: " ++ e), trace ++ [page])
        | .ok doc =>
          match pagePosts doc with
          | .error e => some (.error e, trace ++ [page])
          | .ok ps => fetchPostsLoop fetch n (page + 1) (acc ++ ps) (trace ++ [page]) fuel

/-- `fetch_posts(n)` against an abstract transport `fetch` (the excluded
collaborator `fetch_news_html`), with `fuel` bounding how many pages the
unbounded iterator may advance. -/
def fetchPosts (fetch : Nat → Except String Html) (n fuel : Nat) :
    Option (Except String (List Post) × List Nat) :=
  fetchPostsLoop fetch n 1 [] [] fuel

/-! ## Concrete fixtures used by counterexamples and witnesses -/

/-- A bare metadata row: a `tr` with no author/score/comment children. -/
def emptyTr : Html := .elem "tr" [] []

/-- A story row (`tr.athing`) with an optional rank cell and a story
link, in the shape of the aggregator's listing rows. -/
def mkStoryTr (rankTxt : Option String) (href title : String) : Html :=
  .elem "tr" [("class", "athing")]
    ((match rankTxt with
      | some r => [Html.elem "td" [] [.elem "span" [("class", "rank")] [.text r]]]
      | none => [])
      ++ [Html.elem "td" []
            [.elem "a" [("class", "storylink"), ("href", href)] [.text title]]])

/-- A `tr.athing` with no story link at all. -/
def noLinkTr : Html := .elem "tr" [("class", "athing")] []

/-- The node-in-context inputs used by the `Post::try_from` theorems. -/
def noLinkAThing : AThing := ⟨noLinkTr, [emptyTr]⟩

/-- Story row with link but no following `tr` at all. -/
def noMetaAThing : AThing := ⟨mkStoryTr (some "1.") "u" "t", [.text "\n"]⟩

/-- Story row with link and metadata row but no rank element. -/
def noRankAThing : AThing := ⟨mkStoryTr none "u" "t", [emptyTr]⟩

/-- A linked story row used to show the `expect` cannot fire. -/
def linkedAThing : AThing := ⟨mkStoryTr (some "1.") "u" "t", [emptyTr]⟩

/-- A title of 86 three-byte characters (258 UTF-8 bytes): byte 256 falls
inside the 86th character. -/
def euroTitle : String := String.mk (List.replicate 86 '€')

/-- Story row with the boundary-splitting title and no rank. -/
def euroAThing : AThing := ⟨mkStoryTr none "u" euroTitle, [emptyTr]⟩

/-- A title of 257 two-byte characters (514 UTF-8 bytes). -/
def eAcuteTitle : String := String.mk (List.replicate 257 'é')

/-- The same title after Rust's 256-byte truncation: 128 characters. -/
def eAcuteTruncated : String := String.mk (List.replicate 128 'é')

/-- A complete story row carrying the 257-character title. -/
def eAcuteAThing : AThing := ⟨mkStoryTr (some "1.") "u" eAcuteTitle, [emptyTr]⟩

/-- An element whose first child is a nested element, although the
element's overall text content starts with digits. -/
def nestedDigitsElem : Html :=
  .elem "a" [] [.elem "b" [] [.text "42"], .text " comments"]

/-- The comments anchor of a zero-comment post: the literal `discuss`. -/
def discussAnchor : Html := .elem "a" [("href", "item?id=1")] [.text "discuss"]

/-- A metadata row whose last anchor is the `discuss` label (a true zero
comment count on the site). -/
def discussMetaTr : Html :=
  .elem "tr" []
    [.elem "td" [("class", "subtext")]
      [ .elem "span" [("class", "score")] [.text "5 points"]
      , .elem "a" [("href", "hide?id=1")] [.text "hide"]
      , .text " | "
      , discussAnchor ]]

/-- A metadata row whose last anchor exists but has no digit prefix (an
unparseable comments link). -/
def noDigitsAnchorTr : Html :=
  .elem "tr" []
    [.elem "td" [("class", "subtext")]
      [.elem "a" [("href", "item?id=2")] [.text "comments"]]]

/-- A fixture page for the pagination theorems: thirty story rows ranked
contiguously (page `p` carries ranks `(p-1)*30+1 .. p*30`), each followed
by a bare metadata row, as on the reference fixtures. -/
def samplePage (p : Nat) : Html :=
  .elem "table" []
    ((List.range 30).flatMap fun i =>
      [mkStoryTr (some (toString ((p - 1) * 30 + i + 1) ++ ".")) "u" "t", emptyTr])

/-- The posts the assembler extracts from `samplePage p`. -/
def samplePosts (p : Nat) : List Post :=
  (List.range 30).map fun i =>
    { title := "t", uri := "u", rank := (p - 1) * 30 + i + 1,
      author := none, points := none, comments := none }

/-- A transport that always succeeds with the fixture page. -/
def sampleFetch (p : Nat) : Except String Html := .ok (samplePage p)

/-- A page with no story rows at all. -/
def emptyDoc : Html := .elem "html" [] []

/-! ## Unfolding equation for the pagination loop -/

/-- One-step unfolding of `fetchPostsLoop` (the definition recurses
structurally on the fuel, so this is proved by cases on it). -/
theorem fetchPostsLoop_eq (fetch : Nat → Except String Html) (n page : Nat)
    (acc : List Post) (trace : List Nat) (fuel : Nat) :
    fetchPostsLoop fetch n page acc trace fuel =
      if n ≤ acc.length then some (.ok (acc.take n), trace)
      else
        match fuel with
        | 0 => none
        | fuel + 1 =>
          match fetch page with
          | .error e =>
            some (.error ("Failed to fetch page " ++ toString page
              ++ " from hacker news: " ++ e), trace ++ [page])
          | .ok doc =>
            match pagePosts doc with
            | .error e => some (.error e, trace ++ [page])
            | .ok ps => fetchPostsLoop fetch n (page + 1) (acc ++ ps) (trace ++ [page]) fuel := by
  cases fuel <;> rfl

/-! ## Byte-level lemmas about `takeBytes` and `charIndices` -/

theorem bytesLen_nil : bytesLen [] = 0 := rfl

theorem bytesLen_cons (c : Char) (cs : List Char) :
    bytesLen (c :: cs) = c.utf8Size + bytesLen cs := by
  simp [bytesLen]

theorem bytesLen_append (a b : List Char) :
    bytesLen (a ++ b) = bytesLen a + bytesLen b := by
  simp [bytesLen]

theorem charIndices_append (a b : List Char) (i : Nat) :
    charIndices i (a ++ b) = charIndices i a ++ charIndices (i + bytesLen a) b := by
  induction a generalizing i with
  | nil => simp [charIndices, bytesLen_nil]
  | cons c cs ih => simp [charIndices, ih, bytesLen_cons, Nat.add_assoc]

theorem takeWhile_charIndices (q : Char → Bool) (s : List Char) (i : Nat) :
    (charIndices i s).takeWhile (fun ic => q ic.2) = charIndices i (s.takeWhile q) := by
  induction s generalizing i with
  | nil => simp [charIndices]
  | cons c cs ih =>
    by_cases h : q c <;> simp [charIndices, List.takeWhile_cons, h, ih]

theorem takeBytes_cons_of_le (msg : String) (c : Char) (cs : List Char) (n : Nat)
    (h1 : 1 ≤ n) (h2 : c.utf8Size ≤ n) :
    takeBytes msg n (c :: cs) = (takeBytes msg (n - c.utf8Size) cs).map (c :: ·) := by
  obtain ⟨m, rfl⟩ : ∃ m, n = m + 1 := ⟨n - 1, by omega⟩
  simp [takeBytes, h2]

/-- Taking exactly the byte length of a prefix returns that prefix. -/
theorem takeBytes_exact (msg : String) (P rest : List Char) :
    takeBytes msg (bytesLen P) (P ++ rest) = .ok P := by
  induction P with
  | nil => simp [bytesLen_nil, takeBytes]
  | cons c cs ih =>
    have hpos := c.utf8Size_pos
    rw [List.cons_append, bytesLen_cons,
      takeBytes_cons_of_le msg c (cs ++ rest) _ (by omega) (by omega),
      Nat.add_sub_cancel_left, ih]
    rfl

/-- A byte budget that stops one byte inside a multi-byte character is a
boundary violation. -/
theorem takeBytes_mid (msg : String) (P : List Char) (c : Char) (rest : List Char)
    (hc : 2 ≤ c.utf8Size) :
    takeBytes msg (bytesLen P + 1) (P ++ c :: rest) = .error msg := by
  induction P with
  | nil =>
    rw [bytesLen_nil, List.nil_append]
    simp only [takeBytes]
    rw [if_neg (by omega)]
  | cons c' cs ih =>
    have hpos := c'.utf8Size_pos
    rw [List.cons_append, bytesLen_cons, Nat.add_assoc,
      takeBytes_cons_of_le msg c' (cs ++ c :: rest) _ (by omega) (by omega),
      Nat.add_sub_cancel_left, ih]
    rfl

/-! ## Characterization of the numeric-prefix primitive -/

/-- The amended numeric-prefix rule, written from the spec's point of
view: the captured prefix is the longest run of *Unicode-numeric*
characters (Rust `char::is_numeric`), not merely ASCII digits; an empty
prefix yields nothing; a prefix ending in a multi-byte numeric character
makes the byte slice `text[..=end]` panic; otherwise the prefix parses to
its decimal value exactly when it consists of ASCII digits only and the
value fits in usize, and yields nothing otherwise. -/
def numberPrefixSpec (s : List Char) : Except String (Option Nat) :=
  let P := s.takeWhile charIsNumeric
  if P.isEmpty then .ok none
  else if (P.getLastD ' ').utf8Size = 1 then
    if P.all Char.isDigit then
      if decimalValue P ≤ USIZE_MAX then .ok (some (decimalValue P)) else .ok none
    else .ok none
  else .error slicePanicMsg

theorem parseUsize_of_head_ne_plus (c : Char) (cs : List Char) (h : c ≠ '+') :
    parseUsize (c :: cs) =
      if (c :: cs).all Char.isDigit then
        if decimalValue (c :: cs) ≤ USIZE_MAX then some (decimalValue (c :: cs)) else none
      else none := by
  simp [parseUsize, h]

/-- Every character of the captured prefix is numeric. -/
theorem mem_numeric_prefix {s : List Char} {x : Char}
    (hx : x ∈ s.takeWhile charIsNumeric) : charIsNumeric x :=
  List.mem_takeWhile_imp hx

theorem extract_of_getLast_none (s : List Char)
    (h : ((charIndices 0 s).takeWhile (fun ic => charIsNumeric ic.2)).getLast? = none) :
    extractNumberPrefixText s = .ok none := by
  unfold extractNumberPrefixText
  rw [h]

theorem extract_of_getLast_some (s : List Char) (i : Nat) (cL : Char)
    (h : ((charIndices 0 s).takeWhile (fun ic => charIsNumeric ic.2)).getLast?
      = some (i, cL)) :
    extractNumberPrefixText s =
      match takeBytes slicePanicMsg (i + 1) s with
      | .error e => .error e
      | .ok sub => .ok (parseUsize sub) := by
  unfold extractNumberPrefixText
  rw [h]

/-- `extract_number_prefix` (string level) agrees everywhere with the
amended spec-side rule `numberPrefixSpec`. -/
theorem extractNumberPrefixText_eq_spec (s : List Char) :
    extractNumberPrefixText s = numberPrefixSpec s := by
  rcases List.eq_nil_or_concat (s.takeWhile charIsNumeric) with hP | ⟨Q, c, hP⟩
  · have hlast :
        ((charIndices 0 s).takeWhile (fun ic => charIsNumeric ic.2)).getLast? = none := by
      rw [takeWhile_charIndices charIsNumeric s 0, hP]
      rfl
    rw [extract_of_getLast_none s hlast]
    simp [numberPrefixSpec, hP]
  · rw [List.concat_eq_append] at hP
    have hsplit : s.takeWhile charIsNumeric ++ s.dropWhile charIsNumeric = s :=
      List.takeWhile_append_dropWhile charIsNumeric s
    have hs2 : s = (Q ++ [c]) ++ s.dropWhile charIsNumeric := by
      conv_lhs => rw [← hsplit, hP]
    have hs3 : s = Q ++ c :: s.dropWhile charIsNumeric := by
      conv_lhs => rw [hs2]
      simp [List.append_assoc]
    have hlast :
        ((charIndices 0 s).takeWhile (fun ic => charIsNumeric ic.2)).getLast?
          = some (bytesLen Q, c) := by
      rw [takeWhile_charIndices charIsNumeric s 0, hP, charIndices_append]
      simp only [charIndices, Nat.zero_add]
      exact List.getLast?_concat _
    rw [extract_of_getLast_some s (bytesLen Q) c hlast]
    have hmem : ∀ x ∈ Q ++ [c], charIsNumeric x := by
      intro x hx
      exact mem_numeric_prefix (hP ▸ hx)
    have hne : ¬((Q ++ [c] : List Char).isEmpty = true) := by simp
    rcases Nat.lt_or_ge c.utf8Size 2 with hsz | hsz
    · -- the last prefix character is one byte: the slice is the full prefix
      have hsz1 : c.utf8Size = 1 := by have := c.utf8Size_pos; omega
      have hbytes : bytesLen Q + 1 = bytesLen (Q ++ [c]) := by
        rw [bytesLen_append, bytesLen_cons, bytesLen_nil, hsz1]
      have hTB : takeBytes slicePanicMsg (bytesLen Q + 1) s = .ok (Q ++ [c]) := by
        conv_lhs => rw [hs2, hbytes]
        exact takeBytes_exact _ _ _
      rw [hTB]
      show Except.ok (parseUsize (Q ++ [c])) = numberPrefixSpec s
      simp only [numberPrefixSpec, hP]
      rw [if_neg hne, if_pos (by rw [List.getLastD_concat]; exact hsz1)]
      rcases hq : (Q ++ [c] : List Char) with _ | ⟨h₀, t₀⟩
      · simp at hq
      · have hh : h₀ ≠ '+' := by
          intro hplus
          have hnum : charIsNumeric h₀ := hmem h₀ (by rw [hq]; exact List.mem_cons_self ..)
          rw [hplus] at hnum
          simp [charIsNumeric] at hnum
        rw [parseUsize_of_head_ne_plus h₀ t₀ hh]
        split_ifs <;> rfl
    · -- multi-byte last prefix character: slicing panics
      have hTB : takeBytes slicePanicMsg (bytesLen Q + 1) s = .error slicePanicMsg := by
        conv_lhs => rw [hs3]
        exact takeBytes_mid _ _ _ _ hsz
      rw [hTB]
      show Except.error slicePanicMsg = numberPrefixSpec s
      simp only [numberPrefixSpec, hP]
      rw [if_neg hne, if_neg (by rw [List.getLastD_concat]; omega)]

/-! ## Which messages each primitive can panic with -/

theorem takeBytes_error_msg (msg : String) (cs : List Char) :
    ∀ (n : Nat) (e : String), takeBytes msg n cs = .error e → e = msg := by
  induction cs with
  | nil =>
    intro n e h
    cases n <;> simp [takeBytes] at h
  | cons c cs ih =>
    intro n e h
    cases n with
    | zero => simp [takeBytes] at h
    | succ m =>
      simp only [takeBytes] at h
      split at h
      · cases htb : takeBytes msg (m + 1 - c.utf8Size) cs with
        | ok l => rw [htb] at h; simp [Except.map] at h
        | error e' =>
          rw [htb] at h
          simp only [Except.map] at h
          cases h
          exact ih _ _ htb
      · cases h
        rfl

theorem rustTruncate_error_msg (s : String) (n : Nat) (e : String)
    (h : rustTruncate s n = .error e) : e = truncPanicMsg := by
  unfold rustTruncate at h
  cases htb : takeBytes truncPanicMsg n s.data with
  | ok l => rw [htb] at h; simp [Except.map] at h
  | error e' =>
    rw [htb] at h
    simp only [Except.map] at h
    cases h
    exact takeBytes_error_msg _ _ _ _ htb

theorem extractNumberPrefixText_error_msg (t : List Char) (e : String)
    (h : extractNumberPrefixText t = .error e) : e = slicePanicMsg := by
  unfold extractNumberPrefixText at h
  cases hl : ((charIndices 0 t).takeWhile (fun ic => charIsNumeric ic.2)).getLast? with
  | none => rw [hl] at h; cases h
  | some ic =>
    rw [hl] at h
    obtain ⟨i, cL⟩ := ic
    cases htb : takeBytes slicePanicMsg (i + 1) t with
    | ok sub => simp only [htb] at h; cases h
    | error e' =>
      simp only [htb] at h
      cases h
      exact takeBytes_error_msg _ _ _ _ htb

theorem extractNumberPrefix_error_msg (n : Html) (e : String)
    (h : n.extractNumberPrefix = .error e) : e = slicePanicMsg := by
  unfold Html.extractNumberPrefix at h
  cases hc : n.firstChild with
  | none => rw [hc] at h; cases h
  | some ch =>
    rw [hc] at h
    cases ht : ch.asText with
    | none => simp only [ht] at h; cases h
    | some t =>
      simp only [ht] at h
      exact extractNumberPrefixText_error_msg _ _ h

theorem rank_error_msg (a : AThing) (e : String)
    (h : a.rank = .error e) : e = slicePanicMsg := by
  unfold AThing.rank at h
  cases hf : a.tr.findFirst (fun n => n.hasClass "rank") with
  | none => rw [hf] at h; cases h
  | some n => rw [hf] at h; exact extractNumberPrefix_error_msg _ _ h

theorem points_error_msg (l : AThingLine2) (e : String)
    (h : l.points = .error e) : e = slicePanicMsg := by
  unfold AThingLine2.points at h
  cases hf : l.node.findFirst (fun n => n.hasClass "score") with
  | none => rw [hf] at h; cases h
  | some n => rw [hf] at h; exact extractNumberPrefix_error_msg _ _ h

theorem comments_error_msg (l : AThingLine2) (e : String)
    (h : l.comments = .error e) : e = slicePanicMsg := by
  unfold AThingLine2.comments at h
  cases hf : l.node.findLast (fun n => n.name? == some "a") with
  | none => rw [hf] at h; cases h
  | some n => rw [hf] at h; exact extractNumberPrefix_error_msg _ _ h

/-! ## Lemmas about the pagination loop -/

theorem range'_take (a m n : Nat) (h : n ≤ m) :
    (List.range' a m).take n = List.range' a n := by
  induction n generalizing a m with
  | zero => simp
  | succ k ih =>
    obtain ⟨m', rfl⟩ : ∃ m', m = m' + 1 := ⟨m - 1, by omega⟩
    rw [List.range'_succ, List.range'_succ, List.take_succ_cons, ih (a + 1) m' (by omega)]

/-- If every page fetch succeeds but no page ever yields a valid story
row, the loop consumes all its fuel without finishing. -/
theorem fetchPostsLoop_none_of_empty (fetch : Nat → Except String Html)
    (hok : ∀ p, ∃ doc, fetch p = .ok doc ∧ pagePosts doc = .ok [])
    (n : Nat) :
    ∀ (fuel page : Nat) (acc : List Post) (trace : List Nat),
      acc.length < n → fetchPostsLoop fetch n page acc trace fuel = none := by
  intro fuel
  induction fuel with
  | zero =>
    intro page acc trace hacc
    rw [fetchPostsLoop_eq, if_neg (by omega)]
  | succ fuel ih =>
    intro page acc trace hacc
    rw [fetchPostsLoop_eq, if_neg (by omega)]
    obtain ⟨doc, hf, hp⟩ := hok page
    simp only [hf, hp, List.append_nil]
    exact ih (page + 1) acc (trace ++ [page]) hacc

/-- If the pages before `k` succeed but yield too few posts and page `k`
fails, the loop aborts with the fetch panic after fetching pages
`page, page+1, …, k` exactly once each, in order. -/
theorem fetchPostsLoop_error_of_fetch_failure
    (fetch : Nat → Except String Html) (n k : Nat) (e : String)
    (docOf : Nat → Html) (psOf : Nat → List Post)
    (herr : fetch k = .error e) :
    ∀ (fuel page : Nat) (acc : List Post) (trace : List Nat),
      page ≤ k →
      (∀ p, page ≤ p → p < k →
        fetch p = .ok (docOf p) ∧ pagePosts (docOf p) = .ok (psOf p)) →
      acc.length + ((List.range' page (k - page)).map fun p => (psOf p).length).sum < n →
      k - page < fuel →
      fetchPostsLoop fetch n page acc trace fuel
        = some (.error ("Failed to fetch page " ++ toString k
              ++ " from hacker news: " ++ e),
            trace ++ List.range' page (k + 1 - page)) := by
  intro fuel
  induction fuel with
  | zero =>
    intro page acc trace hpk hok hsum hfuel
    omega
  | succ fuel ih =>
    intro page acc trace hpk hok hsum hfuel
    rw [fetchPostsLoop_eq, if_neg (by omega)]
    rcases Nat.eq_or_lt_of_le hpk with rfl | hlt
    · simp only [herr]
      have h1 : page + 1 - page = 1 := by omega
      rw [h1]
      simp [List.range'_succ]
    · obtain ⟨hf, hp⟩ := hok page le_rfl hlt
      simp only [hf, hp]
      have hdecomp : List.range' page (k - page)
          = page :: List.range' (page + 1) (k - (page + 1)) := by
        have harr : k - page = (k - (page + 1)) + 1 := by omega
        rw [harr, List.range'_succ]
      rw [hdecomp] at hsum
      simp only [List.map_cons, List.sum_cons] at hsum
      rw [ih (page + 1) (acc ++ psOf page) (trace ++ [page]) (by omega)
        (fun p h1 h2 => hok p (by omega) h2)
        (by rw [List.length_append]; omega) (by omega)]
      have htr : (trace ++ [page]) ++ List.range' (page + 1) (k + 1 - (page + 1))
          = trace ++ List.range' page (k + 1 - page) := by
        rw [List.append_assoc]
        congr 1
        have h1 : k + 1 - (page + 1) = k - page := by omega
        have h2 : k + 1 - page = (k - page) + 1 := by omega
        rw [h1, h2, List.range'_succ]
        rfl
      rw [htr]

/-- If each needed page succeeds with 30 posts ranked contiguously
across pages, the loop returns exactly `n` posts ranked `1..n`. -/
theorem fetchPostsLoop_ok_of_full_pages
    (fetch : Nat → Except String Html) (n : Nat)
    (docOf : Nat → Html) (psOf : Nat → List Post) :
    ∀ (fuel page : Nat) (acc : List Post) (trace : List Nat),
      1 ≤ page →
      (∀ p, page ≤ p → (p - 1) * 30 < n →
        fetch p = .ok (docOf p) ∧ pagePosts (docOf p) = .ok (psOf p)
          ∧ (psOf p).map Post.rank = List.range' ((p - 1) * 30 + 1) 30) →
      acc.length = (page - 1) * 30 →
      acc.map Post.rank = List.range' 1 acc.length →
      acc.length < n →
      n ≤ acc.length + fuel * 30 →
      ∃ ps tr, fetchPostsLoop fetch n page acc trace fuel = some (.ok ps, tr)
        ∧ ps.length = n ∧ ps.map Post.rank = List.range' 1 n := by
  intro fuel
  induction fuel with
  | zero =>
    intro page acc trace hpage hok haccLen haccMap hlt hbudget
    omega
  | succ fuel ih =>
    intro page acc trace hpage hok haccLen haccMap hlt hbudget
    rw [fetchPostsLoop_eq, if_neg (by omega)]
    obtain ⟨hf, hp, hranks⟩ := hok page le_rfl (by omega)
    simp only [hf, hp]
    have hlen30 : (psOf page).length = 30 := by
      have hlm := congrArg List.length hranks
      simpa using hlm
    have hacc' : (acc ++ psOf page).length = acc.length + 30 := by
      rw [List.length_append, hlen30]
    have hmap' : (acc ++ psOf page).map Post.rank
        = List.range' 1 ((acc ++ psOf page).length) := by
      have h30 : (psOf page).map Post.rank = List.range' (1 + acc.length) 30 := by
        rw [hranks]
        have hstart : (page - 1) * 30 + 1 = 1 + acc.length := by omega
        rw [hstart]
      rw [List.map_append, haccMap, h30, List.range'_append_1, hacc']
      have hcomm : 30 + acc.length = acc.length + 30 := by omega
      rw [hcomm]
    rcases le_or_lt n ((acc ++ psOf page).length) with hdone | hmore
    · refine ⟨(acc ++ psOf page).take n, trace ++ [page], ?_, ?_, ?_⟩
      · rw [fetchPostsLoop_eq, if_pos hdone]
      · rw [List.length_take]; omega
      · rw [List.map_take, hmap', range'_take 1 _ n hdone]
    · exact ih (page + 1) (acc ++ psOf page) (trace ++ [page]) (by omega)
        (fun p h1 h2 => hok p (by omega) h2)
        (by rw [hacc', haccLen]; omega) hmap' hmore (by omega)

/-! ## Claim theorems -/

/-- C2 (counterexample): the numeric-prefix parse does *not* return the
parsed ASCII-digit prefix whenever that prefix is nonempty.  On the
20-digit input `"18446744073709551616"` (`2^64`, one past `usize::MAX`)
the whole string is the ASCII digit prefix, yet `parse::<usize>()`
overflows and the extraction returns nothing; and on `"2٣x"` the ASCII
digit prefix is `"2"`, yet `char::is_numeric` also accepts the
Arabic-Indic digit `'٣'`, so the byte slice `text[..=end]` ends one byte
into a two-byte character and the code panics instead of returning 2. -/
theorem extract_number_prefix_ascii_claim_counterexample :
    extractNumberPrefixText "18446744073709551616".data = .ok none
      ∧ "18446744073709551616".data.takeWhile Char.isDigit
          = "18446744073709551616".data
      ∧ extractNumberPrefixText "2٣x".data = .error slicePanicMsg
      ∧ "2٣x".data.takeWhile Char.isDigit = ['2'] :=
  ⟨rfl, rfl, rfl, rfl⟩

/-- C2 (amended): the shared numeric-prefix parse captures the longest
prefix of *Unicode-numeric* characters (Rust `char::is_numeric`); it
returns nothing when that prefix is empty; it panics on the byte slice
when the prefix ends in a multi-byte numeric character; otherwise it
returns the prefix parsed as decimal exactly when the prefix consists of
ASCII digits and its value fits in usize, and nothing otherwise (leading
zeros parsed as decimal; `"22."` → 22, `"82 points"` → 82,
`"14 comments"` → 14, `"007"` → 7, `"discuss"` and `""` → nothing). -/
theorem extract_number_prefix_characterization (s : List Char) :
    extractNumberPrefixText s = numberPrefixSpec s :=
  extractNumberPrefixText_eq_spec s

/-- C10: the numeric extraction used by the rank/score/last-anchor marker
elements reads only the element's first child, and only when that child
is a text node: whenever the first child is a nested element the result
is nothing, even when the element's overall text content (here
`"42 comments"`) begins with digits. -/
theorem extract_number_prefix_reads_first_text_child_only :
    (∀ (nm : String) (attrs : List (String × String)) (cn : String)
        (cattrs : List (String × String)) (ccs rest : List Html),
        Html.extractNumberPrefix (.elem nm attrs (.elem cn cattrs ccs :: rest))
          = .ok none)
      ∧ Html.extractNumberPrefix nestedDigitsElem = .ok none
      ∧ nestedDigitsElem.nodeText = "42 comments" :=
  ⟨fun _ _ _ _ _ _ => rfl, rfl, rfl⟩

/-- C8: the comments extraction takes the last `a`-element descendant of
the metadata row and parses the leading digit run of its text; when that
text has no leading numeric characters the result is absent (`none`),
not zero — so the `discuss` label of a zero-comment post and an
unparseable comments link both produce the same absent value. -/
theorem comments_conflates_zero_and_unparseable :
    (∀ (row a : Html) (t : String),
        row.findLast (fun n => n.name? == some "a") = some a →
        a.firstChild = some (.text t) →
        t.data.takeWhile charIsNumeric = [] →
        AThingLine2.comments ⟨row⟩ = .ok none)
      ∧ AThingLine2.comments ⟨discussMetaTr⟩ = .ok none
      ∧ AThingLine2.comments ⟨noDigitsAnchorTr⟩ = .ok none := by
  refine ⟨?_, rfl, rfl⟩
  intro row a t hfind hchild hpref
  simp only [AThingLine2.comments]
  rw [hfind]
  show a.extractNumberPrefix = .ok none
  simp only [Html.extractNumberPrefix]
  rw [hchild]
  show extractNumberPrefixText t.data = .ok none
  apply extract_of_getLast_none
  rw [takeWhile_charIndices charIsNumeric t.data 0, hpref]
  rfl

/-- C8 witness: the universal part applied to the concrete `discuss`
metadata row. -/
theorem comments_conflates_zero_and_unparseable_witness :
    AThingLine2.comments ⟨discussMetaTr⟩ = .ok none :=
  comments_conflates_zero_and_unparseable.1 discussMetaTr discussAnchor "discuss"
    rfl rfl (by decide)

/-- C7: invoking `Post::try_from` on a row without a story link hits the
unconditional `expect("uri + title")` assertion (a panic, not a silent
drop); and whenever the row does have a story link — the caller's
contract, since the caller only passes rows matched as story rows — that
assertion branch cannot fire: no run of `try_from` ends in the
`"uri + title"` panic. -/
theorem missing_storylink_asserts (a : AThing) :
    (a.uriAndTitle = none → Post.tryFrom a = .error expectUriTitleMsg)
      ∧ (∀ u t, a.uriAndTitle = some (u, t) →
          Post.tryFrom a ≠ .error expectUriTitleMsg) := by
  constructor
  · intro h
    simp only [Post.tryFrom, h]
  · intro u t h
    simp only [Post.tryFrom, h]
    cases hl2 : a.line2 with
    | none => simp
    | some l2 =>
      simp only []
      cases ht : rustTruncate t 256 with
      | error e =>
        have := rustTruncate_error_msg _ _ _ ht
        subst this
        simp [truncPanicMsg, expectUriTitleMsg]
      | ok t' =>
        simp only []
        cases hr : a.rank with
        | error e =>
          have := rank_error_msg _ _ hr
          subst this
          simp [slicePanicMsg, expectUriTitleMsg]
        | ok r? =>
          cases r? with
          | none => simp
          | some r =>
            simp only []
            cases ha : (match l2.author with
                        | none => Except.ok none
                        | some a => (rustTruncate a 256).map some) with
            | error e =>
              have : e = truncPanicMsg := by
                cases hau : l2.author with
                | none => rw [hau] at ha; cases ha
                | some au =>
                  rw [hau] at ha
                  have ha' : (rustTruncate au 256).map some = Except.error e := ha
                  cases htr : rustTruncate au 256 with
                  | ok v => rw [htr] at ha'; cases ha'
                  | error e' =>
                    rw [htr] at ha'
                    cases ha'
                    exact rustTruncate_error_msg _ _ _ htr
              subst this
              simp [truncPanicMsg, expectUriTitleMsg]
            | ok author =>
              simp only []
              cases hp : l2.points with
              | error e =>
                have := points_error_msg _ _ hp
                subst this
                simp [slicePanicMsg, expectUriTitleMsg]
              | ok points =>
                simp only []
                cases hc : l2.comments with
                | error e =>
                  have := comments_error_msg _ _ hc
                  subst this
                  simp [slicePanicMsg, expectUriTitleMsg]
                | ok comments => simp

/-- C7 witness: the assertion fires on a concrete linkless row, and
cannot fire on a concrete linked row. -/
theorem missing_storylink_asserts_witness :
    Post.tryFrom noLinkAThing = .error expectUriTitleMsg
      ∧ Post.tryFrom linkedAThing ≠ .error expectUriTitleMsg :=
  ⟨(missing_storylink_asserts noLinkAThing).1 rfl,
   (missing_storylink_asserts linkedAThing).2 "u" "t" rfl⟩

/-- C4 (counterexample): a story row with a story link, a following
metadata row and no parseable rank is *not* always silently dropped: the
title truncation runs before the rank check, and on a title whose
256-byte boundary splits a character (86 three-byte characters here)
`String::truncate` panics, so `try_from` aborts instead of returning
nothing. -/
theorem rank_missing_drop_counterexample :
    euroAThing.uriAndTitle = some ("u", euroTitle)
      ∧ euroAThing.line2 = some ⟨emptyTr⟩
      ∧ euroAThing.rank = .ok none
      ∧ Post.tryFrom euroAThing = .error truncPanicMsg :=
  ⟨rfl, rfl, rfl, rfl⟩

/-- C4 (amended): a story row with a story link that lacks a following
structural (table-row) metadata row yields no `Post` and no error; and
one that lacks a parseable rank yields no `Post` and no error provided
the 256-byte title truncation succeeds (which the counterexample shows
is a real proviso). -/
theorem row_shape_mismatch_dropped (a : AThing) (u t : String)
    (h : a.uriAndTitle = some (u, t)) :
    (a.line2 = none → Post.tryFrom a = .ok none)
      ∧ (∀ t', rustTruncate t 256 = .ok t' → a.rank = .ok none →
          Post.tryFrom a = .ok none) := by
  constructor
  · intro h2
    simp only [Post.tryFrom, h, h2]
  · intro t' ht hr
    simp only [Post.tryFrom, h]
    cases hl2 : a.line2 with
    | none => simp
    | some l2 => simp only [ht, hr]

/-- C4 witness: the two silent-drop branches on concrete rows. -/
theorem row_shape_mismatch_dropped_witness :
    Post.tryFrom noMetaAThing = .ok none ∧ Post.tryFrom noRankAThing = .ok none :=
  ⟨(row_shape_mismatch_dropped noMetaAThing "u" "t" rfl).1 rfl,
   (row_shape_mismatch_dropped noRankAThing "u" "t" rfl).2 "t" rfl rfl⟩

/-- C3 (code bug): the truncation the assembler applies to titles (and
authors) is `String::truncate(256)`, which counts *bytes*, not
characters, although the code's own doc comment says "max 256
characters".  A title of 257 two-byte characters comes out as 128
characters instead of 256; and a title of 86 three-byte characters (258
bytes) panics because byte 256 is not a character boundary — so the
truncation also fails the "must not split a multi-character grapheme"
requirement. -/
theorem title_truncation_is_byte_based :
    eAcuteTitle.length = 257
      ∧ Post.tryFrom eAcuteAThing
          = .ok (some { title := eAcuteTruncated, uri := "u", rank := 1,
                        author := none, points := none, comments := none })
      ∧ eAcuteTruncated.length = 128
      ∧ rustTruncate euroTitle 256 = .error truncPanicMsg :=
  ⟨rfl, rfl, rfl, rfl⟩

/-- C5: `fetch_posts(0)` returns the empty sequence at once — the
`take(0)` adapter never polls the page iterator, so no page is ever
fetched (the trace of fetched pages is empty), whatever the transport
and however much fuel the loop is given. -/
theorem fetch_posts_zero_no_fetch (fetch : Nat → Except String Html) (fuel : Nat) :
    fetchPosts fetch 0 fuel = some (.ok [], []) := by
  rw [fetchPosts, fetchPostsLoop_eq]
  simp

/-- C1: for `1 ≤ n ≤ 100`, when the transport yields, for each page the
loop needs (pages `1 .. ⌈n/30⌉`), a document whose extraction produces 30
posts ranked contiguously across pages, `fetch_posts(n)` returns exactly
`n` posts whose ranks are the contiguous sequence `1..n` in order — the
overshoot inside the last fetched page is trimmed by `take(n)`. -/
theorem fetch_posts_returns_contiguous_ranks
    (fetch : Nat → Except String Html) (n : Nat)
    (docOf : Nat → Html) (psOf : Nat → List Post)
    (hn1 : 1 ≤ n) (_hn2 : n ≤ 100)
    (hok : ∀ p, 1 ≤ p → p ≤ (n + 29) / 30 →
      fetch p = .ok (docOf p) ∧ pagePosts (docOf p) = .ok (psOf p)
        ∧ (psOf p).map Post.rank = List.range' ((p - 1) * 30 + 1) 30) :
    ∀ fuel, (n + 29) / 30 ≤ fuel →
      ∃ ps tr, fetchPosts fetch n fuel = some (.ok ps, tr)
        ∧ ps.length = n ∧ ps.map Post.rank = List.range' 1 n := by
  intro fuel hfuel
  apply fetchPostsLoop_ok_of_full_pages fetch n docOf psOf fuel 1 [] [] le_rfl
  · intro p h1 h2
    exact hok p h1 (by omega)
  · rfl
  · rfl
  · simpa using hn1
  · simp only [List.length_nil, Nat.zero_add]
    omega

/-- C1 witness: the fixture transport (30 valid contiguously ranked rows
per page) at `n = 31`, which spans two pages and overshoots the second
page by 29 posts. -/
theorem fetch_posts_returns_contiguous_ranks_witness :
    ∃ ps tr, fetchPosts sampleFetch 31 2 = some (.ok ps, tr)
      ∧ ps.length = 31 ∧ ps.map Post.rank = List.range' 1 31 :=
  fetch_posts_returns_contiguous_ranks sampleFetch 31 samplePage samplePosts
    (by decide) (by decide)
    (fun p h1 h2 => by
      have hp : p = 1 ∨ p = 2 := by omega
      rcases hp with rfl | rfl
      · exact ⟨rfl, rfl, rfl⟩
      · exact ⟨rfl, rfl, rfl⟩)
    2 (by decide)

/-- C6: for `n ≥ 1`, if the pages before `k` succeed but yield fewer
than `n` posts in total and fetching page `k` fails, the whole
`fetch_posts` run aborts with the fetch panic: the failing page is
fetched exactly once (no retry), no later page is fetched (no skip), and
no list of posts — partial or otherwise — is returned. -/
theorem fetch_failure_fatal
    (fetch : Nat → Except String Html) (n k : Nat) (e : String)
    (docOf : Nat → Html) (psOf : Nat → List Post)
    (_hn : 1 ≤ n) (hk : 1 ≤ k)
    (hok : ∀ p, 1 ≤ p → p < k →
      fetch p = .ok (docOf p) ∧ pagePosts (docOf p) = .ok (psOf p))
    (hshort : ((List.range' 1 (k - 1)).map fun p => (psOf p).length).sum < n)
    (herr : fetch k = .error e) :
    ∀ fuel, k ≤ fuel →
      fetchPosts fetch n fuel
        = some (.error ("Failed to fetch page " ++ toString k
              ++ " from hacker news: " ++ e),
            List.range' 1 k) := by
  intro fuel hfuel
  have h := fetchPostsLoop_error_of_fetch_failure fetch n k e docOf psOf herr
    fuel 1 [] [] hk hok (by simpa using hshort) (by omega)
  simpa using h

/-- C6 witness: a transport failing on page 1 with `n = 1`. -/
theorem fetch_failure_fatal_witness :
    fetchPosts (fun _ => .error "boom") 1 1
      = some (.error ("Failed to fetch page " ++ toString 1
            ++ " from hacker news: " ++ "boom"),
          List.range' 1 1) :=
  fetch_failure_fatal (fun _ => .error "boom") 1 1 "boom"
    (fun _ => emptyDoc) (fun _ => []) (by decide) (by decide)
    (fun p h1 h2 => absurd (h1.trans_lt h2) (by omega))
    (by simp) rfl 1 (by decide)

/-- C9: the loop of `fetch_posts` has no page-count ceiling of its own —
it stops only once `n` posts are accumulated or a fetch fails.  Under a
transport where every fetch succeeds but no page yields a valid story
row, the loop never finishes: for every fuel bound it runs past it. -/
theorem fetch_posts_no_termination_ceiling
    (fetch : Nat → Except String Html)
    (hok : ∀ p, ∃ doc, fetch p = .ok doc ∧ pagePosts doc = .ok [])
    (n : Nat) (hn : 1 ≤ n) (fuel : Nat) :
    fetchPosts fetch n fuel = none :=
  fetchPostsLoop_none_of_empty fetch hok n fuel 1 [] [] (by simpa using hn)

/-- C9 witness: the always-empty-page transport at `n = 1` runs past
1000 pages. -/
theorem fetch_posts_no_termination_ceiling_witness :
    fetchPosts (fun _ => .ok emptyDoc) 1 1000 = none :=
  fetch_posts_no_termination_ceiling (fun _ => .ok emptyDoc)
    (fun _ => ⟨emptyDoc, rfl, rfl⟩) 1 (by decide) 1000

end HN
